import Mathlib

/-!
A shallow embedding of `src/lib.rs` of the CodeArea editor widget
(struct `Content`, struct `CodeArea`, struct `Syntax`, and the event
dispatch of `impl View for CodeArea`), together with theorems settling
the specification's claims about it.

Rust `String` fields become `List Char` in reading order; `push` appends
at the end and `pop` removes the last character.  `usize` becomes `Nat`;
a Rust `-=` that could underflow is modelled by `checkedSub`, and every
operation that performs one returns an `Option`, `none` standing for the
arithmetic-underflow panic of the Rust code.  Additions stay plain `Nat`
additions (no document can approach `2 ^ 64` characters).  Loops are
modelled with explicit fuel equal to the length of the list being
consumed, which the loop body strictly shrinks.
-/

/-- TAB_LEN of `lib.rs`: the fixed visual width assigned to a tab. -/
def TAB_LEN : Nat := 4

/-- Rust `String::pop`: removes and returns the last character. -/
def strPop (s : List Char) : Option (Char × List Char) :=
  match s.getLast? with
  | some c => some (c, s.dropLast)
  | none => none

/-- Rust `a - b` on `usize`, which panics (here: `none`) on underflow. -/
def checkedSub (a b : Nat) : Option Nat :=
  if b ≤ a then some (a - b) else none

/-- struct `Content` of `lib.rs`: the document split at the cursor, with
the cached cursor column and line. -/
structure Content where
  before : List Char
  after : List Char
  selected_column : Nat
  selected_line : Nat
deriving DecidableEq, Repr

/-- `Content::new` of `lib.rs`. -/
def Content.new : Content :=
  { before := [], after := [], selected_column := 0, selected_line := 0 }

/-- `Content::column` of `lib.rs`: counts the characters (each one as 1,
a tab included) between the cursor and the previous newline. -/
def Content.column (c : Content) : Nat :=
  (c.before.reverse.takeWhile (fun ch => ch ≠ '\n')).length

/-- struct `CodeArea` of `lib.rs`, restricted to the buffer engine: the
`syntax`, scroll-base and size fields only serve rendering and are not
touched by any operation modelled here. -/
structure CodeArea where
  content : Content
  enabled : Bool
deriving DecidableEq, Repr

/-- `CodeArea::new` of `lib.rs`. -/
def CodeArea.new : CodeArea :=
  { content := Content.new, enabled := true }

/-- `CodeArea::enable` of `lib.rs`. -/
def CodeArea.enable (s : CodeArea) : CodeArea :=
  { s with enabled := true }

/-- `CodeArea::disable` of `lib.rs`. -/
def CodeArea.disable (s : CodeArea) : CodeArea :=
  { s with enabled := false }

/-- `CodeArea::get_content` of `lib.rs`: `before` followed by the
reversal of `after`. -/
def CodeArea.get_content (s : CodeArea) : List Char :=
  s.content.before ++ s.content.after.reverse

/-- `CodeArea::get_cursor_pos` of `lib.rs`: `(column, line)`. -/
def CodeArea.get_cursor_pos (s : CodeArea) : Nat × Nat :=
  (s.content.selected_column, s.content.selected_line)

/-- `CodeArea::insert` of `lib.rs`: push `ch` onto `before` and add 1 to
the cached column, whatever `ch` is. -/
def CodeArea.insert (s : CodeArea) (ch : Char) : CodeArea :=
  { s with content := { s.content with
      before := s.content.before ++ [ch],
      selected_column := s.content.selected_column + 1 } }

/-- `CodeArea::tab` of `lib.rs`. -/
def CodeArea.tab (s : CodeArea) : CodeArea :=
  { s with content := { s.content with
      before := s.content.before ++ ['\t'],
      selected_column := s.content.selected_column + TAB_LEN } }

/-- `CodeArea::new_line` of `lib.rs`. -/
def CodeArea.new_line (s : CodeArea) : CodeArea :=
  { s with content := { s.content with
      before := s.content.before ++ ['\n'],
      selected_column := 0,
      selected_line := s.content.selected_line + 1 } }

/-- `CodeArea::erase_symbol` of `lib.rs`: pop the last character of
`before`; on a newline, decrement the line (a `usize` subtraction) and
recompute the column by the backward scan of `Content::column`; on a tab
subtract `TAB_LEN` from the column, else subtract 1. -/
def CodeArea.erase_symbol (s : CodeArea) : Option (Option Char × CodeArea) :=
  match strPop s.content.before with
  | none => some (none, s)
  | some (ch, rest) =>
    if ch = '\n' then
      match checkedSub s.content.selected_line 1 with
      | none => none
      | some line =>
        some (some ch, { s with content := { s.content with
          before := rest,
          selected_line := line,
          selected_column := (rest.reverse.takeWhile (fun c => c ≠ '\n')).length } })
    else if ch = '\t' then
      match checkedSub s.content.selected_column TAB_LEN with
      | none => none
      | some col =>
        some (some ch, { s with content := { s.content with
          before := rest, selected_column := col } })
    else
      match checkedSub s.content.selected_column 1 with
      | none => none
      | some col =>
        some (some ch, { s with content := { s.content with
          before := rest, selected_column := col } })

/-- `CodeArea::erase` of `lib.rs`: `erase_symbol` with the result
discarded. -/
def CodeArea.erase (s : CodeArea) : Option CodeArea :=
  (s.erase_symbol).map (fun p => p.2)

/-- Loop body of `CodeArea::erase_line`, with fuel bounding the number
of iterations by the length of `before`. -/
def CodeArea.erase_line_go : Nat → CodeArea → Option CodeArea
  | 0, s => some s
  | fuel + 1, s =>
    match s.erase_symbol with
    | none => none
    | some (none, s1) => some s1
    | some (some ch, s1) =>
      if ch = '\n' then some s1 else CodeArea.erase_line_go fuel s1

/-- `CodeArea::erase_line` of `lib.rs`: repeat `erase_symbol` until a
removed character is a newline or the buffer is exhausted. -/
def CodeArea.erase_line (s : CodeArea) : Option CodeArea :=
  CodeArea.erase_line_go s.content.before.length s

/-- `CodeArea::move_right` of `lib.rs`: move one character from the tail
of `after` to the tail of `before`; only additions, so it is total. -/
def CodeArea.move_right (s : CodeArea) : Option Char × CodeArea :=
  match strPop s.content.after with
  | none => (none, s)
  | some (ch, rest) =>
    if ch = '\n' then
      (some ch, { s with content := { s.content with
        after := rest,
        before := s.content.before ++ [ch],
        selected_column := 0,
        selected_line := s.content.selected_line + 1 } })
    else if ch = '\t' then
      (some ch, { s with content := { s.content with
        after := rest,
        before := s.content.before ++ [ch],
        selected_column := s.content.selected_column + TAB_LEN } })
    else
      (some ch, { s with content := { s.content with
        after := rest,
        before := s.content.before ++ [ch],
        selected_column := s.content.selected_column + 1 } })

/-- `CodeArea::move_left` of `lib.rs`: move one character from the tail
of `before` to the tail of `after`; crossing a newline decrements the
line and recomputes the column via `Content::column`, a tab subtracts
`TAB_LEN`, any other character subtracts 1. -/
def CodeArea.move_left (s : CodeArea) : Option (Option Char × CodeArea) :=
  match strPop s.content.before with
  | none => some (none, s)
  | some (ch, rest) =>
    if ch = '\n' then
      match checkedSub s.content.selected_line 1 with
      | none => none
      | some line =>
        some (some ch, { s with content := { s.content with
          before := rest,
          after := s.content.after ++ [ch],
          selected_line := line,
          selected_column := (rest.reverse.takeWhile (fun c => c ≠ '\n')).length } })
    else if ch = '\t' then
      match checkedSub s.content.selected_column TAB_LEN with
      | none => none
      | some col =>
        some (some ch, { s with content := { s.content with
          before := rest, after := s.content.after ++ [ch], selected_column := col } })
    else
      match checkedSub s.content.selected_column 1 with
      | none => none
      | some col =>
        some (some ch, { s with content := { s.content with
          before := rest, after := s.content.after ++ [ch], selected_column := col } })

/-- `CodeArea::right` of `lib.rs`: `move_right` with the result
discarded. -/
def CodeArea.right (s : CodeArea) : CodeArea :=
  (s.move_right).2

/-- `CodeArea::left` of `lib.rs`: `move_left` with the result
discarded. -/
def CodeArea.left (s : CodeArea) : Option CodeArea :=
  (s.move_left).map (fun p => p.2)

/-- Loop body of `CodeArea::right_to_end`, with fuel bounding the
iterations by the length of `after`; a popped newline is pushed back and
the loop stops. -/
def CodeArea.right_to_end_go : Nat → Nat → CodeArea → Nat × CodeArea
  | 0, counter, s => (counter, s)
  | fuel + 1, counter, s =>
    match strPop s.content.after with
    | none => (counter, s)
    | some (ch, rest) =>
      if ch = '\n' then (counter, s)
      else if ch = '\t' then
        CodeArea.right_to_end_go fuel (counter + 1)
          { s with content := { s.content with
              after := rest,
              before := s.content.before ++ [ch],
              selected_column := s.content.selected_column + TAB_LEN } }
      else
        CodeArea.right_to_end_go fuel (counter + 1)
          { s with content := { s.content with
              after := rest,
              before := s.content.before ++ [ch],
              selected_column := s.content.selected_column + 1 } }

/-- `CodeArea::right_to_end` of `lib.rs`: move right up to the next
newline or the buffer end, returning the number of characters moved. -/
def CodeArea.right_to_end (s : CodeArea) : Nat × CodeArea :=
  CodeArea.right_to_end_go s.content.after.length 0 s

/-- Loop body of `CodeArea::left_to_home`, with fuel bounding the
iterations by the length of `before`; a popped newline is pushed back
and the loop stops; columns decrease by checked subtraction. -/
def CodeArea.left_to_home_go : Nat → Nat → CodeArea → Option (Nat × CodeArea)
  | 0, counter, s => some (counter, s)
  | fuel + 1, counter, s =>
    match strPop s.content.before with
    | none => some (counter, s)
    | some (ch, rest) =>
      if ch = '\n' then some (counter, s)
      else if ch = '\t' then
        match checkedSub s.content.selected_column TAB_LEN with
        | none => none
        | some col =>
          CodeArea.left_to_home_go fuel (counter + 1)
            { s with content := { s.content with
                before := rest,
                after := s.content.after ++ [ch],
                selected_column := col } }
      else
        match checkedSub s.content.selected_column 1 with
        | none => none
        | some col =>
          CodeArea.left_to_home_go fuel (counter + 1)
            { s with content := { s.content with
                before := rest,
                after := s.content.after ++ [ch],
                selected_column := col } }

/-- `CodeArea::left_to_home` of `lib.rs`: move left up to the previous
newline or the buffer start, returning the number of characters
moved. -/
def CodeArea.left_to_home (s : CodeArea) : Option (Nat × CodeArea) :=
  CodeArea.left_to_home_go s.content.before.length 0 s

/-- `CodeArea::home` of `lib.rs`: `left_to_home` with the counter
discarded. -/
def CodeArea.home (s : CodeArea) : Option CodeArea :=
  (s.left_to_home).map (fun p => p.2)

/-- `CodeArea::end` of `lib.rs` (`end` is a Lean keyword, hence the
underscore): `right_to_end` with the counter discarded. -/
def CodeArea.end_ (s : CodeArea) : CodeArea :=
  (s.right_to_end).2

/-- The `for _ in 0..n { self.move_left(); }` loop of `CodeArea::up`:
`n` calls to `move_left`, results discarded, panics propagated. -/
def CodeArea.move_left_n : Nat → CodeArea → Option CodeArea
  | 0, s => some s
  | n + 1, s =>
    match s.move_left with
    | none => none
    | some (_, s1) => CodeArea.move_left_n n s1

/-- `CodeArea::up` of `lib.rs`: `left_to_home` (recording the count of
characters moved), one `left` across the newline, then `move_left` by
the excess of the upper line's `Content::column` width over that
count. -/
def CodeArea.up (s : CodeArea) : Option CodeArea :=
  match s.left_to_home with
  | none => none
  | some (column, s1) =>
    match s1.move_left with
    | none => none
    | some (_, s2) =>
      let upper_line_width := s2.content.column
      if column < upper_line_width then
        CodeArea.move_left_n (upper_line_width - column) s2
      else
        some s2

/-- The `while let Some(ch) = self.move_right()` loop of
`CodeArea::down`: decrement the saved column (a `usize` subtraction)
after each move and stop on a newline or at zero. -/
def CodeArea.down_go : Nat → Nat → CodeArea → Option CodeArea
  | 0, _, s => some s
  | fuel + 1, column, s =>
    match s.move_right with
    | (none, s1) => some s1
    | (some ch, s1) =>
      match checkedSub column 1 with
      | none => none
      | some column1 =>
        if ch = '\n' then some s1
        else if column1 = 0 then some s1
        else CodeArea.down_go fuel column1 s1

/-- `CodeArea::down` of `lib.rs`: save `Content::column`, `right_to_end`,
one `right` across the newline, then move right while decrementing the
saved column until a newline or zero. -/
def CodeArea.down (s : CodeArea) : Option CodeArea :=
  let column := s.content.column
  let s1 := (s.right_to_end).2
  let s2 := s1.right
  CodeArea.down_go s2.content.after.length column s2

/-- Loop body of `CodeArea::beginning_of_file`: `move_left` until it
reports no movement. -/
def CodeArea.beginning_of_file_go : Nat → CodeArea → Option CodeArea
  | 0, s => some s
  | fuel + 1, s =>
    match s.move_left with
    | none => none
    | some (none, s1) => some s1
    | some (some _, s1) => CodeArea.beginning_of_file_go fuel s1

/-- `CodeArea::beginning_of_file` of `lib.rs`. -/
def CodeArea.beginning_of_file (s : CodeArea) : Option CodeArea :=
  CodeArea.beginning_of_file_go s.content.before.length s

/-- Loop body of `CodeArea::end_of_file`: `move_right` until it reports
no movement. -/
def CodeArea.end_of_file_go : Nat → CodeArea → CodeArea
  | 0, s => s
  | fuel + 1, s =>
    match s.move_right with
    | (none, s1) => s1
    | (some _, s1) => CodeArea.end_of_file_go fuel s1

/-- `CodeArea::end_of_file` of `lib.rs`. -/
def CodeArea.end_of_file (s : CodeArea) : CodeArea :=
  CodeArea.end_of_file_go s.content.after.length s

/-- Keys of the `cursive` events that `CodeArea::on_event` matches on
(`endKey` stands for `Key::End`), plus `del` as a representative key the
dispatch does not handle. -/
inductive EvKey
  | tab
  | enter
  | backspace
  | home
  | endKey
  | left
  | right
  | up
  | down
  | esc
  | del
deriving DecidableEq, Repr

/-- The `cursive` events that reach `CodeArea::on_event`: a printable
character, a plain key, a Ctrl-modified key, or anything else. -/
inductive Event
  | char (ch : Char)
  | key (k : EvKey)
  | ctrl (k : EvKey)
  | other
deriving DecidableEq, Repr

/-- Result of `CodeArea::on_event`, as in `cursive::EventResult`. -/
inductive EventResult
  | consumed
  | ignored
deriving DecidableEq, Repr

/-- `CodeArea::on_event` of `impl View for CodeArea` in `lib.rs`: when
`enabled` is false every event is ignored with the state untouched;
otherwise the event is dispatched to the matching operation. -/
def CodeArea.on_event (s : CodeArea) (ev : Event) : Option (CodeArea × EventResult) :=
  if s.enabled then
    match ev with
    | Event.char ch => some (s.insert ch, EventResult.consumed)
    | Event.key EvKey.tab => some (s.tab, EventResult.consumed)
    | Event.key EvKey.enter => some (s.new_line, EventResult.consumed)
    | Event.ctrl EvKey.backspace =>
        (s.erase_line).map (fun t => (t, EventResult.consumed))
    | Event.key EvKey.backspace =>
        (s.erase).map (fun t => (t, EventResult.consumed))
    | Event.key EvKey.home | Event.ctrl EvKey.left =>
        (s.home).map (fun t => (t, EventResult.consumed))
    | Event.key EvKey.endKey | Event.ctrl EvKey.right =>
        some (s.end_, EventResult.consumed)
    | Event.ctrl EvKey.up | Event.ctrl EvKey.home =>
        (s.beginning_of_file).map (fun t => (t, EventResult.consumed))
    | Event.ctrl EvKey.down | Event.ctrl EvKey.endKey =>
        some (s.end_of_file, EventResult.consumed)
    | Event.key EvKey.left => (s.left).map (fun t => (t, EventResult.consumed))
    | Event.key EvKey.right => some (s.right, EventResult.consumed)
    | Event.key EvKey.up => (s.up).map (fun t => (t, EventResult.consumed))
    | Event.key EvKey.down => (s.down).map (fun t => (t, EventResult.consumed))
    | Event.key EvKey.esc => some (s.disable, EventResult.consumed)
    | _ => some (s, EventResult.ignored)
  else
    some (s, EventResult.ignored)

/-- Visual width of one character per the spec: a tab occupies `TAB_LEN`
columns, every other character one. -/
def charWidth (ch : Char) : Nat :=
  if ch = '\t' then TAB_LEN else 1

/-- Sum of the visual widths of a list of characters. -/
def weightSum (l : List Char) : Nat :=
  (l.map charWidth).sum

/-- Follows the spec's words (a second definition for comparison with
the cached value, not taken from the code): the number of visual columns
between the last newline (or the buffer start) and the cursor within
`before`, counting each tab as `TAB_LEN`. -/
def specVisualColumns (before : List Char) : Nat :=
  weightSum (before.reverse.takeWhile (fun ch => ch ≠ '\n'))

/-- Follows the spec's words: the count of newline characters in
`before`, the value the cached line must equal. -/
def specLineCount (before : List Char) : Nat :=
  (before.filter (fun ch => ch = '\n')).length

section SyntaxBuilder

variable {Color : Type}

/-- struct `Syntax` of `lib.rs`: two maps, character to color and word
to color.  The `cursive::theme::Color` type is opaque to this code, so
it is a type parameter; each `HashMap` is embedded as its lookup
function. -/
structure Syntax (Color : Type) where
  symbols : Char → Option Color
  words : List Char → Option Color

/-- `Syntax::new` of `lib.rs`: both maps empty. -/
def Syntax.new : Syntax Color :=
  { symbols := fun _ => none, words := fun _ => none }

/-- `Syntax::add_word` of `lib.rs`: `HashMap::insert`, replacing any
earlier color stored under the same word. -/
def Syntax.add_word (s : Syntax Color) (word : List Char) (color : Color) : Syntax Color :=
  { s with words := fun w => if w = word then some color else s.words w }

/-- `Syntax::add_symbol` of `lib.rs`: `HashMap::insert`, replacing any
earlier color stored under the same character. -/
def Syntax.add_symbol (s : Syntax Color) (symbol : Char) (color : Color) : Syntax Color :=
  { s with symbols := fun c => if c = symbol then some color else s.symbols c }

/-- `Syntax::add_one_color_words` of `lib.rs`: insert every word of the
slice with the one color. -/
def Syntax.add_one_color_words (s : Syntax Color) (ws : List (List Char)) (color : Color) :
    Syntax Color :=
  ws.foldl (fun acc w => acc.add_word w color) s

/-- `Syntax::add_one_color_symbols` of `lib.rs`. -/
def Syntax.add_one_color_symbols (s : Syntax Color) (cs : List Char) (color : Color) :
    Syntax Color :=
  cs.foldl (fun acc c => acc.add_symbol c color) s

/-- `Syntax::add_words` of `lib.rs`: insert every pair of the
dictionary. -/
def Syntax.add_words (s : Syntax Color) (dictionary : List (List Char × Color)) :
    Syntax Color :=
  dictionary.foldl (fun acc p => acc.add_word p.1 p.2) s

/-- `Syntax::add_symbols` of `lib.rs`. -/
def Syntax.add_symbols (s : Syntax Color) (dictionary : List (Char × Color)) :
    Syntax Color :=
  dictionary.foldl (fun acc p => acc.add_symbol p.1 p.2) s

/-- One call in a chain of `Syntax` builder calls: an `add_word` or an
`add_symbol`. -/
inductive SynOp (Color : Type)
  | addWord (word : List Char) (color : Color)
  | addSymbol (symbol : Char) (color : Color)

/-- Apply one builder call. -/
def applySynOp (s : Syntax Color) : SynOp Color → Syntax Color
  | SynOp.addWord w c => s.add_word w c
  | SynOp.addSymbol k c => s.add_symbol k c

/-- Apply a chain of builder calls left to right. -/
def applySynOps (s : Syntax Color) (ops : List (SynOp Color)) : Syntax Color :=
  ops.foldl applySynOp s

end SyntaxBuilder

/-- Modelled from the spec: the undo record of §4.2, a coalesced run of
typed or of erased characters.  No undo log exists anywhere in the
repository's source; the spec fixes this design from the source lineage,
so it is embedded from the spec's words. -/
inductive UndoRecord
  | typedRun (text : List Char)
  | erasedRun (text : List Char)
deriving DecidableEq, Repr

/-- Modelled from the spec: the engine of §4.2, the buffer together with
the undo stack (most recent record first) and the flag that coalescing
is allowed (set false by an undo, true by any edit). -/
structure UndoEngine where
  area : CodeArea
  history : List UndoRecord
  sinceUndo : Bool
deriving DecidableEq, Repr

/-- Modelled from the spec: buffer and undo log created empty
together. -/
def UndoEngine.new : UndoEngine :=
  { area := CodeArea.new, history := [], sinceUndo := false }

/-- Modelled from the spec: append the typed character to the head
`TypedRun` when the head is one and no undo intervened, else push a
fresh `TypedRun` of that character. -/
def pushTyped (h : List UndoRecord) (sinceUndo : Bool) (ch : Char) : List UndoRecord :=
  match h, sinceUndo with
  | UndoRecord.typedRun text :: rest, true => UndoRecord.typedRun (text ++ [ch]) :: rest
  | _, _ => UndoRecord.typedRun [ch] :: h

/-- Modelled from the spec: append the erased character (in removal
order) to the head `ErasedRun` under the same coalescing rule. -/
def pushErased (h : List UndoRecord) (sinceUndo : Bool) (ch : Char) : List UndoRecord :=
  match h, sinceUndo with
  | UndoRecord.erasedRun text :: rest, true => UndoRecord.erasedRun (text ++ [ch]) :: rest
  | _, _ => UndoRecord.erasedRun [ch] :: h

/-- Modelled from the spec: `insert` recorded as a typed character. -/
def UndoEngine.insert (e : UndoEngine) (ch : Char) : UndoEngine :=
  { area := e.area.insert ch,
    history := pushTyped e.history e.sinceUndo ch,
    sinceUndo := true }

/-- Modelled from the spec: `tab` recorded as a typed tab character. -/
def UndoEngine.tab (e : UndoEngine) : UndoEngine :=
  { area := e.area.tab,
    history := pushTyped e.history e.sinceUndo '\t',
    sinceUndo := true }

/-- Modelled from the spec: `newline` recorded as a typed newline. -/
def UndoEngine.new_line (e : UndoEngine) : UndoEngine :=
  { area := e.area.new_line,
    history := pushTyped e.history e.sinceUndo '\n',
    sinceUndo := true }

/-- Modelled from the spec: `eraseSymbol` recording the removed
character when one was removed. -/
def UndoEngine.erase_symbol (e : UndoEngine) : Option UndoEngine :=
  match e.area.erase_symbol with
  | none => none
  | some (none, a) => some { e with area := a }
  | some (some ch, a) =>
    some { area := a,
           history := pushErased e.history e.sinceUndo ch,
           sinceUndo := true }

/-- Modelled from the spec: remove the last `n` characters as `n`
`eraseSymbol` calls would, without creating an undo record. -/
def eraseNoRecord : Nat → CodeArea → Option CodeArea
  | 0, a => some a
  | n + 1, a =>
    match a.erase_symbol with
    | none => none
    | some (_, a1) => eraseNoRecord n a1

/-- Modelled from the spec: `undo()` of §4.2.  Pops the head record; an
`ErasedRun` is reinserted reversed at the cursor, advancing it as
`insert` does per character; a `TypedRun` removes its length in
characters; an empty log is a no-op.  After an undo coalescing starts
afresh. -/
def UndoEngine.undo (e : UndoEngine) : Option UndoEngine :=
  match e.history with
  | [] => some e
  | UndoRecord.erasedRun text :: rest =>
    some { area := text.reverse.foldl CodeArea.insert e.area,
           history := rest,
           sinceUndo := false }
  | UndoRecord.typedRun text :: rest =>
    (eraseNoRecord text.length e.area).map
      (fun a => { area := a, history := rest, sinceUndo := false })

theorem strPop_nil : strPop [] = none := rfl

theorem strPop_concat (l : List Char) (c : Char) : strPop (l ++ [c]) = some (c, l) := by
  simp [strPop, List.getLast?_concat, List.dropLast_concat]

theorem strPop_eq_none {l : List Char} (h : strPop l = none) : l = [] := by
  cases l using List.reverseRecOn with
  | nil => rfl
  | append_singleton l' c' => rw [strPop_concat] at h; exact absurd h (by simp)

theorem strPop_eq_some {l r : List Char} {c : Char} (h : strPop l = some (c, r)) :
    l = r ++ [c] := by
  cases l using List.reverseRecOn with
  | nil => exact absurd h (by simp [strPop_nil])
  | append_singleton l' c' =>
    rw [strPop_concat] at h
    obtain ⟨h1, h2⟩ := Prod.mk.injEq .. ▸ Option.some.injEq .. ▸ h
    simp_all

theorem weightSum_nil : weightSum [] = 0 := rfl

theorem weightSum_append (l1 l2 : List Char) :
    weightSum (l1 ++ l2) = weightSum l1 + weightSum l2 := by
  simp [weightSum]

theorem weightSum_concat (l : List Char) (c : Char) :
    weightSum (l ++ [c]) = weightSum l + charWidth c := by
  simp [weightSum]

/-- Claim C1 (code_bug evidence): the cached-column invariant fails on a
reachable state.  After `tab(); new_line(); erase_symbol()` the removed
character is the newline, the recompute in `erase_symbol` counts the
remaining tab as one column, so the cached column is 1, while the number
of visual columns of `beforeCursor` (tab counted as `TAB_LEN`) is 4. -/
theorem c1_cached_column_bug :
    (CodeArea.new.tab.new_line.erase_symbol).map
        (fun p => (p.1, p.2.content.selected_column, specVisualColumns p.2.content.before))
      = some (some '\n', 1, TAB_LEN)
    ∧ (1 : Nat) ≠ TAB_LEN := by
  constructor
  · rfl
  · decide

/-- Claim C2 (code_bug evidence): `move_left` and `left_to_home` are not
total on reachable states.  After `tab(); new_line(); erase_symbol()`
the buffer holds one tab and the cached column is 1, so crossing the tab
runs `selected_column -= TAB_LEN` as `1 - 4`, a `usize` underflow
(modelled `none`); the prefix of the trace itself is defined. -/
theorem c2_underflow_bug :
    (CodeArea.new.tab.new_line.erase_symbol).isSome = true
    ∧ (CodeArea.new.tab.new_line.erase_symbol).bind (fun p => p.2.move_left) = none
    ∧ (CodeArea.new.tab.new_line.erase_symbol).bind (fun p => p.2.home) = none := by
  refine ⟨rfl, rfl, rfl⟩

/-- Claim C3 (counterexample): `insert` does not consult the `enabled`
flag, so `disable()` followed by a direct `insert('x')` call changes
`content()` from empty to `"x"`. -/
theorem c3_disable_insert_counterexample :
    CodeArea.new.disable.get_content = ([] : List Char)
    ∧ (CodeArea.new.disable.insert 'x').get_content = ['x']
    ∧ (['x'] : List Char) ≠ ([] : List Char) := by
  refine ⟨rfl, rfl, by decide⟩

/-- Claim C3 (amended): the disabled gate lives in the event dispatch,
not in the mutating methods: while `enabled` is false, `on_event`
returns the state unchanged and `Ignored` for every event. -/
theorem c3_amended_disabled_events_ignored (s : CodeArea) (ev : Event)
    (h : s.enabled = false) :
    s.on_event ev = some (s, EventResult.ignored) := by
  simp [CodeArea.on_event, h]

/-- Witness for `c3_amended_disabled_events_ignored` at the freshly
disabled empty widget and a character event. -/
theorem c3_amended_witness :
    CodeArea.new.disable.enabled = false
    ∧ CodeArea.new.disable.on_event (Event.char 'x')
        = some (CodeArea.new.disable, EventResult.ignored) :=
  ⟨rfl, c3_amended_disabled_events_ignored CodeArea.new.disable (Event.char 'x') rfl⟩

/-- Claim C4 (counterexample): `up()` on the first line is not a no-op
on the cursor: from `"ab"` with the cursor at `(2, 0)` it moves the
cursor to `(0, 0)`; `down()` on the last line is not a no-op either:
from `"abc"` with the cursor at `(2, 0)` it moves the cursor to the line
end `(3, 0)`.  Content stays unchanged in both runs. -/
theorem c4_up_down_counterexample :
    (CodeArea.new.insert 'a' |>.insert 'b').get_cursor_pos = (2, 0)
    ∧ ((CodeArea.new.insert 'a' |>.insert 'b').up).map
        (fun t => (t.get_content, t.get_cursor_pos)) = some (['a', 'b'], (0, 0))
    ∧ ((CodeArea.new.insert 'a' |>.insert 'b' |>.insert 'c').left.bind
        (fun t => (t.down).map (fun u => (u.get_content, u.get_cursor_pos))))
        = some (['a', 'b', 'c'], (3, 0))
    ∧ ((0, 0) : Nat × Nat) ≠ (2, 0) ∧ ((3, 0) : Nat × Nat) ≠ (2, 0) := by
  refine ⟨rfl, rfl, rfl, by decide, by decide⟩

/-- Claim C5: the undo scenario, run against the undo log modelled from
the spec (none exists in the source): `insert('a'); insert('b');
eraseSymbol(); undo()` gives content `"ab"` and cursor `(2, 0)`, the
erased `'b'` reinserted at the cursor and the cursor advanced past
it. -/
theorem c5_undo_restores_erased_run :
    (((UndoEngine.new.insert 'a').insert 'b').erase_symbol.bind UndoEngine.undo).map
        (fun e => (e.area.get_content, e.area.get_cursor_pos))
      = some (['a', 'b'], (2, 0)) := by
  rfl

/-- Claim C6 (counterexample): the state built by `new_line(); insert('\n')`
is reachable, its cursor `(1, 1)` is not at the document start, yet
`moveLeft()` then `moveRight()` ends with cursor `(0, 1)`: crossing back
over the newline resets the column to 0, not to the cached 1. -/
theorem c6_move_left_right_counterexample :
    (CodeArea.new.new_line.insert '\n').get_cursor_pos = (1, 1)
    ∧ ((CodeArea.new.new_line.insert '\n').move_left).map
        (fun p => ((p.2.move_right).2.get_content, (p.2.move_right).2.get_cursor_pos))
      = some ((CodeArea.new.new_line.insert '\n').get_content, (0, 1))
    ∧ ((0, 1) : Nat × Nat) ≠ (1, 1) := by
  refine ⟨rfl, rfl, by decide⟩

/-- Claim C7: building `"abc\nde"` by the six inserting calls and then
`up(); insert('f')` yields `"abfc\nde"`: `up` records the 2 characters
to the line start, crosses the newline, and the first line being 3 wide
moves one further left, so `'f'` lands before `'c'`; the cursor after
`up()` is `(2, 0)`. -/
theorem c7_up_clamps_column :
    ((CodeArea.new.insert 'a' |>.insert 'b' |>.insert 'c'
        |>.new_line |>.insert 'd' |>.insert 'e').up).map
        (fun t => ((t.insert 'f').get_content, t.get_cursor_pos))
      = some (['a', 'b', 'f', 'c', '\n', 'd', 'e'], (2, 0)) := by
  rfl

/-- Claim C8: `erase_line` repeats `erase_symbol` until a removed
character is a newline or the buffer is exhausted: from `"ab\n"` one
call stops at the newline leaving `"ab"` with cursor `(2, 0)`, and a
second call exhausts the buffer leaving it empty with cursor
`(0, 0)`. -/
theorem c8_erase_line_scenario :
    ((CodeArea.new.insert 'a' |>.insert 'b' |>.new_line).erase_line).map
        (fun t => (t.get_content, t.get_cursor_pos)) = some (['a', 'b'], (2, 0))
    ∧ ((CodeArea.new.insert 'a' |>.insert 'b' |>.new_line).erase_line.bind
        CodeArea.erase_line).map (fun t => (t.get_content, t.get_cursor_pos))
      = some (([] : List Char), (0, 0)) := by
  refine ⟨rfl, rfl⟩

/-- Claim C9: for every character, `insert` appends it to `beforeCursor`,
adds exactly 1 to the cached column and leaves the cached line and
`afterCursor` untouched; hence inserting `'\n'` leaves the cached line
at 0 while `beforeCursor` holds one newline, and inserting `'\t'` leaves
the cached column at 1 while the visual width is `TAB_LEN`. -/
theorem c9_insert_unconditional :
    (∀ (s : CodeArea) (ch : Char),
        (s.insert ch).content.before = s.content.before ++ [ch]
        ∧ (s.insert ch).content.selected_column = s.content.selected_column + 1
        ∧ (s.insert ch).content.selected_line = s.content.selected_line
        ∧ (s.insert ch).content.after = s.content.after
        ∧ (s.insert ch).enabled = s.enabled)
    ∧ (CodeArea.new.insert '\n').content.selected_line = 0
    ∧ specLineCount (CodeArea.new.insert '\n').content.before = 1
    ∧ (CodeArea.new.insert '\t').content.selected_column = 1
    ∧ specVisualColumns (CodeArea.new.insert '\t').content.before = TAB_LEN
    ∧ (0 : Nat) ≠ 1 ∧ (1 : Nat) ≠ TAB_LEN := by
  refine ⟨fun s ch => ⟨rfl, rfl, rfl, rfl, rfl⟩, rfl, rfl, rfl, rfl, by decide, by decide⟩

/-- Claim C6 (amended): for every state whose `beforeCursor` ends in a
character whose bookkeeping cannot underflow (cached column at least
`TAB_LEN` for a tab, at least 1 for an ordinary character) and whose
cached column is 0 and cached line at least 1 when that character is a
newline, `moveLeft()` followed by `moveRight()` restores the whole state
exactly. -/
theorem c6_amended_move_left_right_inverse (s : CodeArea) (ch : Char) (rest : List Char)
    (hb : s.content.before = rest ++ [ch])
    (hn : ch = '\n' → s.content.selected_column = 0 ∧ 1 ≤ s.content.selected_line)
    (ht : ch = '\t' → TAB_LEN ≤ s.content.selected_column)
    (ho : ch ≠ '\n' → ch ≠ '\t' → 1 ≤ s.content.selected_column) :
    (s.move_left).map (fun p => (p.2.move_right).2) = some s := by
  obtain ⟨⟨b, a, c, l⟩, e⟩ := s
  dsimp only at hb hn ht ho
  subst hb
  by_cases h1 : ch = '\n'
  · subst h1
    obtain ⟨hc, hl⟩ := hn rfl
    subst hc
    simp [CodeArea.move_left, CodeArea.move_right, strPop_concat, checkedSub, hl,
      Nat.sub_add_cancel hl]
  · by_cases h2 : ch = '\t'
    · subst h2
      have hc := ht rfl
      simp [CodeArea.move_left, CodeArea.move_right, strPop_concat, checkedSub, h1, hc,
        Nat.sub_add_cancel hc]
    · have hc := ho h1 h2
      simp [CodeArea.move_left, CodeArea.move_right, strPop_concat, checkedSub, h1, h2, hc,
        Nat.sub_add_cancel hc]

/-- Witness for `c6_amended_move_left_right_inverse` at the state built
by `insert('a')`. -/
theorem c6_amended_witness :
    (CodeArea.new.insert 'a').content.before = [] ++ ['a']
    ∧ (('a' = '\n') → (CodeArea.new.insert 'a').content.selected_column = 0
        ∧ 1 ≤ (CodeArea.new.insert 'a').content.selected_line)
    ∧ (('a' = '\t') → TAB_LEN ≤ (CodeArea.new.insert 'a').content.selected_column)
    ∧ (('a' ≠ '\n') → ('a' ≠ '\t') → 1 ≤ (CodeArea.new.insert 'a').content.selected_column)
    ∧ ((CodeArea.new.insert 'a').move_left).map (fun p => (p.2.move_right).2)
        = some (CodeArea.new.insert 'a') :=
  ⟨by decide, by decide, by decide, by decide,
    c6_amended_move_left_right_inverse (CodeArea.new.insert 'a') 'a' []
      (by decide) (by decide) (by decide) (by decide)⟩

theorem right_to_end_go_no_newline (fuel : Nat) :
    ∀ (counter : Nat) (b a : List Char) (c l : Nat) (e : Bool),
      a.length ≤ fuel → '\n' ∉ a →
      CodeArea.right_to_end_go fuel counter ⟨⟨b, a, c, l⟩, e⟩ =
        (counter + a.length, ⟨⟨b ++ a.reverse, [], c + weightSum a, l⟩, e⟩) := by
  induction fuel with
  | zero =>
    intro counter b a c l e hlen hmem
    have ha : a = [] := List.length_eq_zero.mp (Nat.le_zero.mp hlen)
    subst ha
    simp [CodeArea.right_to_end_go, weightSum]
  | succ fuel ih =>
    intro counter b a c l e hlen hmem
    cases a using List.reverseRecOn with
    | nil => simp [CodeArea.right_to_end_go, strPop_nil, weightSum]
    | append_singleton rest ch =>
      have hch : ch ≠ '\n' := by
        intro h; exact hmem (h ▸ List.mem_append_right _ (List.mem_singleton.mpr rfl))
      have hrest : '\n' ∉ rest := fun h => hmem (List.mem_append_left _ h)
      have hlen1 : rest.length ≤ fuel := by
        simpa using hlen
      by_cases h2 : ch = '\t'
      · subst h2
        rw [CodeArea.right_to_end_go]
        simp only [strPop_concat, hch, if_false, if_pos rfl]
        rw [ih (counter + 1) (b ++ ['\t']) rest (c + TAB_LEN) l e hlen1 hrest]
        simp [weightSum_concat, charWidth, List.reverse_append]
        omega
      · rw [CodeArea.right_to_end_go]
        simp only [strPop_concat, hch, h2, if_false]
        rw [ih (counter + 1) (b ++ [ch]) rest (c + 1) l e hlen1 hrest]
        simp [weightSum_concat, charWidth, h2, List.reverse_append]
        omega

theorem left_to_home_go_no_newline (fuel : Nat) :
    ∀ (counter : Nat) (b a : List Char) (l : Nat) (e : Bool),
      b.length ≤ fuel → '\n' ∉ b →
      CodeArea.left_to_home_go fuel counter ⟨⟨b, a, weightSum b, l⟩, e⟩ =
        some (counter + b.length, ⟨⟨[], a ++ b.reverse, 0, l⟩, e⟩) := by
  induction fuel with
  | zero =>
    intro counter b a l e hlen hmem
    have hb : b = [] := List.length_eq_zero.mp (Nat.le_zero.mp hlen)
    subst hb
    simp [CodeArea.left_to_home_go, weightSum]
  | succ fuel ih =>
    intro counter b a l e hlen hmem
    cases b using List.reverseRecOn with
    | nil => simp [CodeArea.left_to_home_go, strPop_nil, weightSum]
    | append_singleton rest ch =>
      have hch : ch ≠ '\n' := by
        intro h; exact hmem (h ▸ List.mem_append_right _ (List.mem_singleton.mpr rfl))
      have hrest : '\n' ∉ rest := fun h => hmem (List.mem_append_left _ h)
      have hlen1 : rest.length ≤ fuel := by simpa using hlen
      by_cases h2 : ch = '\t'
      · subst h2
        have hsub : checkedSub (weightSum (rest ++ ['\t'])) TAB_LEN = some (weightSum rest) := by
          simp [checkedSub, weightSum_concat, charWidth]
        rw [CodeArea.left_to_home_go]
        simp only [strPop_concat, hch, if_false, if_pos rfl, hsub]
        rw [ih (counter + 1) rest (a ++ ['\t']) l e hlen1 hrest]
        simp [List.reverse_append]
        omega
      · have hsub : checkedSub (weightSum (rest ++ [ch])) 1 = some (weightSum rest) := by
          simp [checkedSub, weightSum_concat, charWidth, h2]
        rw [CodeArea.left_to_home_go]
        simp only [strPop_concat, hch, h2, if_false, hsub]
        rw [ih (counter + 1) rest (a ++ [ch]) l e hlen1 hrest]
        simp [List.reverse_append]
        omega

/-- Claim C4 (amended): `up()` at the first line (no newline in
`beforeCursor`, cached column consistent with the tab-weighted width of
`beforeCursor`) leaves the content unchanged and moves the cursor to the
start of the line; `down()` at the last line (no newline in
`afterCursor`) leaves the content and the cached line unchanged and
moves the cursor to the end of the line (`afterCursor` emptied).
Neither is a cursor no-op unless the cursor already sits at that
boundary. -/
theorem c4_amended_up_down (s t : CodeArea)
    (h1 : '\n' ∉ s.content.before)
    (h2 : s.content.selected_column = weightSum s.content.before)
    (h3 : '\n' ∉ t.content.after) :
    (s.up).map (fun u => (u.get_content, u.get_cursor_pos))
        = some (s.get_content, (0, s.content.selected_line))
    ∧ (t.down).map (fun u => (u.get_content, u.content.selected_line, u.content.after))
        = some (t.get_content, t.content.selected_line, ([] : List Char)) := by
  obtain ⟨⟨b, a, c, l⟩, e⟩ := s
  obtain ⟨⟨b2, a2, c2, l2⟩, e2⟩ := t
  dsimp only at h1 h2 h3 ⊢
  subst h2
  constructor
  · rw [CodeArea.up, CodeArea.left_to_home]
    dsimp only
    rw [left_to_home_go_no_newline b.length 0 b a l e le_rfl h1]
    simp [CodeArea.move_left, strPop_nil, Content.column, CodeArea.get_content,
      CodeArea.get_cursor_pos, CodeArea.move_left_n, List.reverse_append]
  · rw [CodeArea.down, CodeArea.right_to_end]
    dsimp only
    rw [right_to_end_go_no_newline a2.length 0 b2 a2 c2 l2 e2 le_rfl h3]
    simp [CodeArea.right, CodeArea.move_right, strPop_nil, CodeArea.down_go,
      CodeArea.get_content]

/-- Witness for `c4_amended_up_down`: the first-line state built by
`insert('a')` and an explicit last-line state whose cursor sits
mid-line. -/
theorem c4_amended_witness :
    ('\n' ∉ (CodeArea.new.insert 'a').content.before)
    ∧ (CodeArea.new.insert 'a').content.selected_column
        = weightSum (CodeArea.new.insert 'a').content.before
    ∧ ('\n' ∉ (CodeArea.mk (Content.mk ['a'] ['c', 'b'] 1 0) true).content.after)
    ∧ ((CodeArea.new.insert 'a').up).map (fun u => (u.get_content, u.get_cursor_pos))
        = some ((CodeArea.new.insert 'a').get_content,
            (0, (CodeArea.new.insert 'a').content.selected_line))
    ∧ ((CodeArea.mk (Content.mk ['a'] ['c', 'b'] 1 0) true).down).map
          (fun u => (u.get_content, u.content.selected_line, u.content.after))
        = some ((CodeArea.mk (Content.mk ['a'] ['c', 'b'] 1 0) true).get_content, 0,
            ([] : List Char)) := by
  refine ⟨by decide, by decide, by decide, ?_, ?_⟩
  · exact (c4_amended_up_down (CodeArea.new.insert 'a')
      (CodeArea.mk (Content.mk ['a'] ['c', 'b'] 1 0) true)
      (by decide) (by decide) (by decide)).1
  · exact (c4_amended_up_down (CodeArea.new.insert 'a')
      (CodeArea.mk (Content.mk ['a'] ['c', 'b'] 1 0) true)
      (by decide) (by decide) (by decide)).2

theorem applySynOps_symbols_congr {Color : Type} (ops : List (SynOp Color)) :
    ∀ (s t : Syntax Color) (k : Char), s.symbols k = t.symbols k →
      (applySynOps s ops).symbols k = (applySynOps t ops).symbols k := by
  induction ops with
  | nil => intro s t k h; exact h
  | cons op ops ih =>
    intro s t k h
    refine ih _ _ k ?_
    cases op with
    | addWord w c => simpa [applySynOp, Syntax.add_word] using h
    | addSymbol a c => simp [applySynOp, Syntax.add_symbol, h]

theorem applySynOps_words_congr {Color : Type} (ops : List (SynOp Color)) :
    ∀ (s t : Syntax Color) (w : List Char), s.words w = t.words w →
      (applySynOps s ops).words w = (applySynOps t ops).words w := by
  induction ops with
  | nil => intro s t w h; exact h
  | cons op ops ih =>
    intro s t w h
    refine ih _ _ w ?_
    cases op with
    | addWord w2 c => simp [applySynOp, Syntax.add_word, h]
    | addSymbol a c => simpa [applySynOp, Syntax.add_symbol] using h

/-- Claim C10: the builder applies last-write-wins.  For any starting
map, any chain `mid` of further `add_word`/`add_symbol` calls, adding
the same symbol key (or word key) a second time makes the later color
the one looked up, and any other key reads exactly what it would read
had the two duplicate additions never happened. -/
theorem c10_last_write_wins (Color : Type) (s : Syntax Color) (mid : List (SynOp Color))
    (k k2 : Char) (w w2 : List Char) (c1 c2 d1 d2 : Color)
    (hk : k2 ≠ k) (hw : w2 ≠ w) :
    ((applySynOps (s.add_symbol k c1) mid).add_symbol k c2).symbols k = some c2
    ∧ ((applySynOps (s.add_symbol k c1) mid).add_symbol k c2).symbols k2
        = (applySynOps s mid).symbols k2
    ∧ ((applySynOps (s.add_word w d1) mid).add_word w d2).words w = some d2
    ∧ ((applySynOps (s.add_word w d1) mid).add_word w d2).words w2
        = (applySynOps s mid).words w2 := by
  refine ⟨by simp [Syntax.add_symbol], ?_, by simp [Syntax.add_word], ?_⟩
  · have h0 : (s.add_symbol k c1).symbols k2 = s.symbols k2 := by
      simp [Syntax.add_symbol, hk]
    simpa [Syntax.add_symbol, hk] using
      applySynOps_symbols_congr mid (s.add_symbol k c1) s k2 h0
  · have h0 : (s.add_word w d1).words w2 = s.words w2 := by
      simp [Syntax.add_word, hw]
    simpa [Syntax.add_word, hw] using
      applySynOps_words_congr mid (s.add_word w d1) s w2 h0

/-- Witness for `c10_last_write_wins` over `Nat` colors: symbol `'a'`
added as 0 then 1, word `"x"` added as 2 then 3, checked at the other
keys `'b'` and `"y"` with an empty intervening chain. -/
theorem c10_last_write_wins_witness :
    (('b' : Char) ≠ 'a') ∧ ((['y'] : List Char) ≠ ['x'])
    ∧ (((applySynOps ((Syntax.new : Syntax Nat).add_symbol 'a' 0) []).add_symbol 'a' 1).symbols 'a'
        = some 1
    ∧ ((applySynOps ((Syntax.new : Syntax Nat).add_symbol 'a' 0) []).add_symbol 'a' 1).symbols 'b'
        = (applySynOps (Syntax.new : Syntax Nat) []).symbols 'b'
    ∧ ((applySynOps ((Syntax.new : Syntax Nat).add_word ['x'] 2) []).add_word ['x'] 3).words ['x']
        = some 3
    ∧ ((applySynOps ((Syntax.new : Syntax Nat).add_word ['x'] 2) []).add_word ['x'] 3).words ['y']
        = (applySynOps (Syntax.new : Syntax Nat) []).words ['y']) :=
  ⟨by decide, by decide,
    c10_last_write_wins Nat Syntax.new [] 'a' 'b' ['x'] ['y'] 0 1 2 3 (by decide) (by decide)⟩
